import Mathlib

/-!
Verification of the vocabulary-flashcard ingestion, quiz and persistence
logic of `src/types.ts`.

The TypeScript source is shallowly embedded below.  Conventions:

* JavaScript runtime values decoded from JSON are modelled by the inductive
  type `Jv`; `JSON.parse` is modelled by the executable recursive-descent
  function `jsonParse` (number literals are modelled as integers, which is
  sufficient for the card schema where the only numeric field is `id`);
  `JSON.stringify` is modelled by `stringify`.
* `Date.now()` is modelled as an explicit natural-number parameter `now`
  passed to the ingestion entry point, so one ingestion call uses a single
  timestamp.
* A JavaScript exception escaping a piece of code is modelled with
  `Except Unit`; code wrapped in `try ... catch` inspects the result.
* `localStorage` is modelled as the current value under one fixed key:
  `Option String` (`none` when the key is absent).
-/

namespace Vokabel

/-- A decoded JavaScript/JSON value (numbers restricted to integers). -/
inductive Jv where
  | null : Jv
  | bool : Bool → Jv
  | num : Int → Jv
  | str : String → Jv
  | arr : List Jv → Jv
  | obj : List (String × Jv) → Jv
deriving Repr

/-- Characters matched by the JavaScript regular-expression class for
whitespace and trimmed by string trimming (ASCII portion). -/
def isWs (c : Char) : Bool :=
  c = ' ' || c = '\t' || c = '\n' || c = '\r' || c = '\x0b' || c = '\x0c'

/-- JSON token whitespace accepted between tokens by the JSON grammar. -/
def isJsonWs (c : Char) : Bool :=
  c = ' ' || c = '\t' || c = '\n' || c = '\r'

/-- Model of the JavaScript string `trim` method, on character lists. -/
def jsTrim (cs : List Char) : List Char :=
  ((cs.dropWhile isWs).reverse.dropWhile isWs).reverse

/-- Model of splitting a string on newline characters, on character lists:
the semantics of `text.split('\n')`. -/
def splitNl (cs : List Char) : List (List Char) :=
  cs.foldr (fun c acc =>
    if c = '\n' then [] :: acc
    else match acc with
      | [] => [[c]]
      | a :: rest => (c :: a) :: rest) [[]]

/-- Model of the JavaScript per-character lowercasing used by
`String.prototype.toLowerCase` (ASCII portion). -/
def jsToLower (s : String) : String :=
  ⟨s.data.map Char.toLower⟩

/-- Truthiness of a JavaScript value, as used by `||` and `?:`. -/
def jsTruthy : Jv → Bool
  | .null => false
  | .bool b => b
  | .num n => n != 0
  | .str s => !s.isEmpty
  | .arr _ => true
  | .obj _ => true

/-- `v || d` for a possibly-absent JavaScript property value: the value
itself when present and truthy, otherwise the fallback `d`. -/
def jsOrO (v : Option Jv) (d : Jv) : Jv :=
  match v with
  | some x => if jsTruthy x then x else d
  | none => d

/-- Property read `o.k` on a decoded value: `none` models `undefined`.
`JSON.parse` keeps the last of duplicate keys, hence the reverse lookup. -/
def objGet (v : Jv) (k : String) : Option Jv :=
  match v with
  | .obj kvs => (kvs.reverse.find? (fun p => p.1 == k)).map (fun p => p.2)
  | _ => none

-- ### JSON.parse model

def skipWs (cs : List Char) : List Char := cs.dropWhile isJsonWs

def hexVal (c : Char) : Option Nat :=
  if '0' ≤ c ∧ c ≤ '9' then some (c.toNat - 48)
  else if 'a' ≤ c ∧ c ≤ 'f' then some (c.toNat - 87)
  else if 'A' ≤ c ∧ c ≤ 'F' then some (c.toNat - 55)
  else none

/-- Parse the body of a JSON string literal (the opening quote already
consumed); yields the decoded characters and the input after the closing
quote. -/
def parseStr : List Char → Option (List Char × List Char)
  | [] => none
  | '"' :: rest => some ([], rest)
  | '\\' :: rest =>
    match rest with
    | '"' :: r => (parseStr r).map (fun p => ('"' :: p.1, p.2))
    | '\\' :: r => (parseStr r).map (fun p => ('\\' :: p.1, p.2))
    | '/' :: r => (parseStr r).map (fun p => ('/' :: p.1, p.2))
    | 'b' :: r => (parseStr r).map (fun p => ('\x08' :: p.1, p.2))
    | 'f' :: r => (parseStr r).map (fun p => ('\x0c' :: p.1, p.2))
    | 'n' :: r => (parseStr r).map (fun p => ('\n' :: p.1, p.2))
    | 'r' :: r => (parseStr r).map (fun p => ('\r' :: p.1, p.2))
    | 't' :: r => (parseStr r).map (fun p => ('\t' :: p.1, p.2))
    | 'u' :: h1 :: h2 :: h3 :: h4 :: r =>
      match hexVal h1, hexVal h2, hexVal h3, hexVal h4 with
      | some a, some b, some c, some d =>
        (parseStr r).map (fun p =>
          (Char.ofNat (((a * 16 + b) * 16 + c) * 16 + d) :: p.1, p.2))
      | _, _, _, _ => none
    | _ => none
  | c :: rest => (parseStr rest).map (fun p => (c :: p.1, p.2))

def digitsVal (ds : List Char) : Nat :=
  ds.foldl (fun a c => a * 10 + (c.toNat - 48)) 0

/-- Parse a (nonempty) run of decimal digits as a natural number. -/
def parseDigits (cs : List Char) : Option (Nat × List Char) :=
  let ds := cs.takeWhile Char.isDigit
  if ds.isEmpty then none
  else some (digitsVal ds, cs.drop ds.length)

/-- Recursive-descent JSON value parser; `fuel` bounds recursion depth and
list length and is instantiated with more than the input length, so it
never runs out on meaningful input. -/
def parseVal : Nat → List Char → Option (Jv × List Char)
  | 0, _ => none
  | fuel + 1, cs =>
    match skipWs cs with
    | 'n' :: 'u' :: 'l' :: 'l' :: r => some (.null, r)
    | 't' :: 'r' :: 'u' :: 'e' :: r => some (.bool true, r)
    | 'f' :: 'a' :: 'l' :: 's' :: 'e' :: r => some (.bool false, r)
    | '"' :: r => (parseStr r).map (fun p => (.str ⟨p.1⟩, p.2))
    | '[' :: r =>
      (match skipWs r with
       | ']' :: r2 => some (.arr [], r2)
       | r1 => parseArr fuel r1 [])
    | '\x7b' :: r =>
      (match skipWs r with
       | '\x7d' :: r2 => some (.obj [], r2)
       | r1 => parseObj fuel r1 [])
    | '-' :: r =>
      (parseDigits r).map (fun p => (.num (-(Int.ofNat p.1)), p.2))
    | cs1 =>
      (parseDigits cs1).map (fun p => (.num (Int.ofNat p.1), p.2))
where
  /-- Elements of a JSON array after the opening bracket (nonempty case). -/
  parseArr : Nat → List Char → List Jv → Option (Jv × List Char)
    | 0, _, _ => none
    | fuel + 1, cs, acc =>
      match parseVal fuel cs with
      | none => none
      | some (v, r) =>
        match skipWs r with
        | ',' :: r2 => parseArr fuel r2 (acc ++ [v])
        | ']' :: r2 => some (.arr (acc ++ [v]), r2)
        | _ => none
  /-- Members of a JSON object after the opening brace (nonempty case). -/
  parseObj : Nat → List Char → List (String × Jv) → Option (Jv × List Char)
    | 0, _, _ => none
    | fuel + 1, cs, acc =>
      match skipWs cs with
      | '"' :: r =>
        match parseStr r with
        | none => none
        | some (k, r1) =>
          match skipWs r1 with
          | ':' :: r2 =>
            match parseVal fuel r2 with
            | none => none
            | some (v, r3) =>
              match skipWs r3 with
              | ',' :: r4 => parseObj fuel r4 (acc ++ [(⟨k⟩, v)])
              | '\x7d' :: r4 => some (.obj (acc ++ [(⟨k⟩, v)]), r4)
              | _ => none
          | _ => none
      | _ => none

/-- Model of `JSON.parse` on one line: the whole input must be consumed up
to trailing whitespace; `none` models a thrown `SyntaxError`. -/
def jsonParse (cs : List Char) : Option Jv :=
  match parseVal (cs.length + 2) cs with
  | some (v, r) => if (skipWs r).isEmpty then some v else none
  | none => none

-- ### JSON.stringify model

/-- Escape one character as inside a JSON string literal produced by
`JSON.stringify`. -/
def escapeChar (c : Char) : List Char :=
  if c = '"' then ['\\', '"']
  else if c = '\\' then ['\\', '\\']
  else if c = '\n' then ['\\', 'n']
  else if c = '\r' then ['\\', 'r']
  else if c = '\t' then ['\\', 't']
  else if c = '\x08' then ['\\', 'b']
  else if c = '\x0c' then ['\\', 'f']
  else if c.toNat < 32 then
    ['\\', 'u', '0', '0',
     (if c.toNat / 16 < 10 then Char.ofNat (48 + c.toNat / 16)
      else Char.ofNat (87 + c.toNat / 16)),
     (if c.toNat % 16 < 10 then Char.ofNat (48 + c.toNat % 16)
      else Char.ofNat (87 + c.toNat % 16))]
  else [c]

def quoteStr (s : String) : String :=
  "\"" ++ ⟨s.data.flatMap escapeChar⟩ ++ "\""

def joinComma : List String → String
  | [] => ""
  | [s] => s
  | s :: rest => s ++ "," ++ joinComma rest

/-- `JSON.stringify`, fueled: the fuel bounds nesting depth and only makes
the recursion structural (`Jv` nests through `List`, so Lean cannot use
direct structural recursion here). -/
def stringifyF : Nat → Jv → String
  | 0, _ => ""
  | fuel + 1, v =>
    match v with
    | .null => "null"
    | .bool true => "true"
    | .bool false => "false"
    | .num n => toString n
    | .str s => quoteStr s
    | .arr xs => "[" ++ joinComma (xs.map (stringifyF fuel)) ++ "]"
    | .obj kvs =>
      "\x7b" ++
        joinComma (kvs.map (fun p => quoteStr p.1 ++ ":" ++ stringifyF fuel p.2))
        ++ "\x7d"

/-- Model of `JSON.stringify` (on values without `undefined`).
`JSON.stringify` never fails; the fixed fuel far exceeds the nesting
depth of any value arising in this development, and no theorem below
relies on the behaviour past that depth (deduplication reasoning only
uses `stringify` as a function, through congruence). -/
def stringify (v : Jv) : String := stringifyF 1000000 v

-- ### Record Normalizer (src/types.ts lines 43-61, 74-93)

/-- `normalizeAnswer` (src/types.ts line 43):
`input.trim().toLowerCase().replace(whitespace-runs, ' ')`. -/
def collapseWs : List Char → List Char
  | [] => []
  | [c] => if isWs c then [' '] else [c]
  | c1 :: c2 :: cs =>
    if isWs c1 && isWs c2 then collapseWs (c2 :: cs)
    else (if isWs c1 then ' ' else c1) :: collapseWs (c2 :: cs)

def normalizeAnswer (input : String) : String :=
  ⟨collapseWs ((jsTrim input.data).map Char.toLower)⟩

/-- The body of `cleanText` on a string: strip one trailing group of an
underscore followed by one or more digits (the regex `_\d+$`). -/
def stripIdSuffix (cs : List Char) : List Char :=
  let r := cs.reverse
  let ds := r.takeWhile Char.isDigit
  if ds.isEmpty then cs
  else
    match r.drop ds.length with
    | '_' :: rest => rest.reverse
    | _ => cs

/-- `cleanText` (src/types.ts line 58) applied to a string argument; the
falsy guard returns the empty string for an empty input. -/
def cleanText (s : String) : String :=
  if s.isEmpty then "" else ⟨stripIdSuffix s.data⟩

/-- `cleanText` applied to an arbitrary runtime value, as happens for
`full_form` and the `accepted_answers_de` entries: a falsy value yields
the empty string, a truthy non-string throws (`.replace` is not a
function), modelled as `Except.error`. -/
def cleanTextJ (v : Jv) : Except Unit String :=
  if jsTruthy v then
    match v with
    | .str s => .ok ⟨stripIdSuffix s.data⟩
    | _ => .error ()
  else .ok ""

/-- `validateCard` (src/types.ts line 47): the decoded value must have a
string `lemma` property and an array `translations_ko` property (property
reads on non-objects yield `undefined`, failing both tests). -/
def validateCard (v : Jv) : Bool :=
  (match objGet v "lemma" with | some (.str _) => true | _ => false) &&
  (match objGet v "translations_ko" with | some (.arr _) => true | _ => false)

/-- The Card record (src/types.ts lines 1-12).  Fields whose TypeScript
type is not enforced at runtime (`gender`, `prompt_ko`, `level`, `topic`,
`language`, the `translations_ko` entries) carry the raw decoded value. -/
structure Card where
  id : Int
  «lemma» : String
  gender : Jv
  full_form : String
  translations_ko : List Jv
  prompt_ko : Jv
  accepted_answers_de : List String
  level : Jv
  topic : Jv
  language : Jv
deriving Repr

/-- Card construction in `parseJSONL` (src/types.ts lines 74-93) for a
validated record; `idx` is the line index and `now` the ingestion
timestamp.  Errors model JavaScript exceptions thrown by `cleanText` on a
truthy non-string, which the surrounding `try` block catches. -/
def fullFormOf (o : Jv) (displayLemma : String) : Except Unit String :=
  match objGet o "full_form" with
  | some v => if jsTruthy v then cleanTextJ v else .ok displayLemma
  | none => .ok displayLemma

/-- The `accepted_answers_de` coalescing: map the supplied entries through
`cleanText` and lowercasing, or default to the cleaned lemma lowercased. -/
def acceptedOf (o : Jv) (displayLemma : String) : Except Unit (List String) :=
  match objGet o "accepted_answers_de" with
  | some (.arr xs) => xs.mapM (fun a => (cleanTextJ a).map jsToLower)
  | _ => .ok [jsToLower displayLemma]

/-- The `id` coalescing: an explicit numeric id, else generated from the
ingestion timestamp plus the line index. -/
def idOf (o : Jv) (idx now : Nat) : Int :=
  match objGet o "id" with
  | some (.num n) => n
  | _ => Int.ofNat (now + idx)

def normalizeCard (o : Jv) (idx now : Nat) : Except Unit Card :=
  match objGet o "lemma", objGet o "translations_ko" with
  | some (.str rawLemma), some (.arr transArr) =>
    let displayLemma := cleanText rawLemma
    (fullFormOf o displayLemma).bind (fun displayFullForm =>
    (acceptedOf o displayLemma).bind (fun accepted =>
    .ok { id := idOf o idx now
          «lemma» := displayLemma
          gender := jsOrO (objGet o "gender") .null
          full_form := displayFullForm
          translations_ko := transArr
          prompt_ko := jsOrO (objGet o "prompt_ko") (jsOrO transArr.head? (.str "???"))
          accepted_answers_de := accepted
          level := jsOrO (objGet o "level") (.str "Unknown")
          topic := jsOrO (objGet o "topic") (.str "General")
          language := jsOrO (objGet o "language") (.str "German") }))
  | _, _ => .error ()

/-- The content signature used for deduplication (src/types.ts lines
95-103): `JSON.stringify` of the six content fields in source order. -/
def sigOf (c : Card) : String :=
  stringify (.obj [("lang", c.language), ("lemma", .str c.«lemma»),
                   ("gender", c.gender), ("trans", .arr c.translations_ko),
                   ("level", c.level), ("topic", c.topic)])

-- ### Ingestion Pipeline (src/types.ts lines 63-130)

/-- Outcome of processing one line inside the `forEach` body. -/
inductive LineOutcome where
  | blank : LineOutcome
  | invalid : LineOutcome
  | card : Card → LineOutcome

/-- One line of the loop body of `parseJSONL`: skip blank lines, decode,
validate, normalize; a decode failure, a structural-validation failure or
a thrown normalization error all count as one invalid line. -/
def processLine (now idx : Nat) (line : List Char) : LineOutcome :=
  if (jsTrim line).isEmpty then .blank
  else
    match jsonParse line with
    | none => .invalid
    | some v =>
      if validateCard v then
        match normalizeCard v idx now with
        | .ok c => .card c
        | .error _ => .invalid
      else .invalid

/-- Loop state of `parseJSONL`: the surviving cards, the `seen` signature
set and the invalid-line counter. -/
structure IngestState where
  cards : List Card
  seen : List String
  invalid : Nat

/-- One iteration of the `forEach` over `(index, line)` pairs, including
the deduplication push guarded by the `seen` set. -/
def ingestStep (now : Nat) (st : IngestState) (p : Nat × List Char) : IngestState :=
  match processLine now p.1 p.2 with
  | .blank => st
  | .invalid => { st with invalid := st.invalid + 1 }
  | .card c =>
    if st.seen.contains (sigOf c) then st
    else { st with cards := st.cards ++ [c], seen := sigOf c :: st.seen }

def ingestLines (now : Nat) (lines : List (List Char)) : IngestState :=
  lines.enum.foldl (ingestStep now) ⟨[], [], 0⟩

/-- Result of `parseJSONL`. -/
structure ParseResult where
  cards : List Card
  error : Option String

def emptyResultMsg : String := "유효한 카드 데이터가 없습니다."

def corruptionWarningMsg (invalidCount : Nat) : String :=
  "파일의 상당수(" ++ toString invalidCount ++ "줄)가 올바르지 않은 형식입니다."

/-- The termination policy of `parseJSONL` (src/types.ts lines 119-129).
The source compares `cards.length < lines.length * 0.5`; for natural
numbers this is exactly `2 * cards.length < lines.length`. -/
def finishParse (lineCount : Nat) (st : IngestState) : ParseResult :=
  if st.cards.isEmpty then ⟨[], some emptyResultMsg⟩
  else if st.invalid > 0 ∧ 2 * st.cards.length < lineCount then
    ⟨st.cards, some (corruptionWarningMsg st.invalid)⟩
  else ⟨st.cards, none⟩

def parseLines (now : Nat) (lines : List (List Char)) : ParseResult :=
  finishParse lines.length (ingestLines now lines)

/-- `parseJSONL` (src/types.ts line 63): `text.trim().split('\n')`, the
per-line loop, then the termination policy.  `now` models `Date.now()`. -/
def parseJSONL (text : String) (now : Nat) : ParseResult :=
  parseLines now (splitNl (jsTrim text.data))

-- ### Review/Wrong-Answer Store (src/types.ts lines 802-809, 926-931)

/-- Serialization of a Card back to a JavaScript object, with the property
order of the object literal in `parseJSONL`. -/
def cardToJv (c : Card) : Jv :=
  .obj [("id", .num c.id), ("lemma", .str c.«lemma»), ("gender", c.gender),
        ("full_form", .str c.full_form), ("translations_ko", .arr c.translations_ko),
        ("prompt_ko", c.prompt_ko),
        ("accepted_answers_de", .arr (c.accepted_answers_de.map .str)),
        ("level", c.level), ("topic", c.topic), ("language", c.language)]

/-- `saveWrongCard` (src/types.ts lines 802-809).  `stored` is the current
wrong-cards payload in the key-value store.  The `JSON.parse` call here is
NOT wrapped in try/catch, so a corrupt payload makes the call throw,
modelled as `Except.error`; likewise `list.find` on a decoded non-array
value throws.  On success the result is the new payload. -/
def saveWrongCard (stored : Option String) (card : Card) : Except Unit (Option String) :=
  (match stored with
   | none => Except.ok ([] : List Jv)
   | some s =>
     match jsonParse s.data with
     | none => .error ()
     | some (.arr xs) => .ok xs
     | some _ => .error ()).bind (fun list =>
  if list.any (fun x =>
      match objGet x "id" with
      | some (.num n) => n == card.id
      | _ => false) then
    .ok stored
  else
    .ok (some (stringify (.arr (list ++ [cardToJv card])))))

/-- The wrong-card load in the App mount effect (src/types.ts lines
926-931): the `JSON.parse` is wrapped in try/catch, so a corrupt payload
leaves the initial empty list in place (log only). -/
def loadWrongCards (stored : Option String) : Jv :=
  match stored with
  | none => .arr []
  | some s =>
    match jsonParse s.data with
    | some v => v
    | none => .arr []

-- ### Memo Store (src/types.ts lines 306-323)

/-- The memo load in the LearningView mount effect (src/types.ts lines
306-315): same guarded shape as the wrong-card load, with an empty memo
mapping as the initial state. -/
def loadMemos (stored : Option String) : Jv :=
  match stored with
  | none => .obj []
  | some s =>
    match jsonParse s.data with
    | some v => v
    | none => .obj []

/-- The in-memory memo mapping: card id to note text, insertion-ordered. -/
def Memos := List (Int × String)

/-- The object spread `\x7b ...memos, [cardId]: text \x7d`: update the
existing entry in place, or append a new one. -/
def upsertMemo (memos : List (Int × String)) (k : Int) (t : String) :
    List (Int × String) :=
  if memos.any (fun p => p.1 == k) then
    memos.map (fun p => if p.1 == k then (p.1, t) else p)
  else memos ++ [(k, t)]

/-- `handleMemoChange` (src/types.ts lines 317-323): a candidate note
longer than 30 characters is rejected before any state or store update;
otherwise the mapping is updated and serialized into the store. -/
def handleMemoChange (memos : List (Int × String)) (store : Option String)
    (cardId : Int) (text : String) : List (Int × String) × Option String :=
  if text.length > 30 then (memos, store)
  else
    let newMemos := upsertMemo memos cardId text
    (newMemos,
     some (stringify (.obj (newMemos.map (fun p => (toString p.1, .str p.2))))))

-- ### Quiz Session Engine (src/types.ts lines 764-814)

inductive Feedback where
  | idle : Feedback
  | correct : Feedback
  | incorrect : Feedback
deriving Repr, DecidableEq

/-- The QuizView component state relevant to submission handling. -/
structure QuizState where
  currentIndex : Nat
  input : String
  feedback : Feedback
  total : Nat
  correct : Nat
  isFinished : Bool
  sessionWrongCards : List Card
deriving Repr

/-- Placeholder for the out-of-range read `cards[currentIndex]`; every
theorem below constrains the index to be in range. -/
def defaultCard : Card :=
  { id := 0, «lemma» := "", gender := .null, full_form := "",
    translations_ko := [], prompt_ko := .null, accepted_answers_de := [],
    level := .null, topic := .null, language := .null }

/-- `handleNext` (src/types.ts lines 811-814). -/
def handleNext (cards : List Card) (st : QuizState) : QuizState :=
  let st1 := { st with feedback := .idle, input := "" }
  if st.currentIndex + 1 ≥ cards.length then { st1 with isFinished := true }
  else { st1 with currentIndex := st.currentIndex + 1 }

/-- `handleSubmit` (src/types.ts lines 784-800).  Returns the component
state after the event handler, the wrong-cards store payload, and whether
an exception escaped the handler (the unguarded `JSON.parse` inside
`saveWrongCard`).  State setters called before the throwing call still
take effect; the `sessionWrongCards` append after it does not. -/
def handleSubmit (cards : List Card) (store : Option String) (st : QuizState) :
    QuizState × Option String × Bool :=
  if st.isFinished then (st, store, false)
  else if st.feedback ≠ .idle then (handleNext cards st, store, false)
  else if (jsTrim st.input.data).isEmpty then (st, store, false)
  else
    let currentCard := cards.getD st.currentIndex defaultCard
    let normalizedInput := normalizeAnswer st.input
    let isCorrect := currentCard.accepted_answers_de.contains normalizedInput
    let st1 := { st with
      total := st.total + 1,
      correct := if isCorrect then st.correct + 1 else st.correct,
      feedback := if isCorrect then .correct else .incorrect }
    if isCorrect then (st1, store, false)
    else
      match saveWrongCard store currentCard with
      | .ok store1 =>
        ({ st1 with sessionWrongCards := st.sessionWrongCards ++ [currentCard] },
         store1, false)
      | .error _ => (st1, store, true)

-- ### Helper definitions for stating and proving the claims

def linesOf (text : String) : List (List Char) := splitNl (jsTrim text.data)

def ingestOf (text : String) (now : Nat) : IngestState :=
  ingestLines now (linesOf text)

/-- The normalized cards of all decodable, valid lines in line order,
before deduplication; `k` is the index of the first line. -/
def validCardsFrom (now k : Nat) (lines : List (List Char)) : List Card :=
  (lines.enumFrom k).filterMap (fun p =>
    match processLine now p.1 p.2 with
    | .card c => some c
    | _ => none)

def validCards (text : String) (now : Nat) : List Card :=
  validCardsFrom now 0 (linesOf text)

/-- The number of invalid lines (decode failures plus validation failures
plus thrown normalizations), independent of deduplication. -/
def invalidCountFrom (now k : Nat) (lines : List (List Char)) : Nat :=
  (lines.enumFrom k).countP (fun p =>
    match processLine now p.1 p.2 with
    | .invalid => true
    | _ => false)

def invalidLines (text : String) (now : Nat) : Nat :=
  invalidCountFrom now 0 (linesOf text)

/-- Reference formulation of first-occurrence deduplication by signature:
returns the kept cards and the final `seen` set. -/
def dedupAux (seen : List String) : List Card → List Card × List String
  | [] => ([], seen)
  | c :: cs =>
    if seen.contains (sigOf c) then dedupAux seen cs
    else
      let r := dedupAux (sigOf c :: seen) cs
      (c :: r.1, r.2)

/-- A card with its (possibly generated) `id` blanked out: everything the
ingestion produces except the synthetic identity. -/
def stripId (c : Card) : Card := { c with id := 0 }

-- ### Concrete inputs used by counterexamples and witnesses

/-- The end-to-end example line from the specification. -/
def apfelLine : String :=
  "\x7b\"lemma\":\"Apfel\",\"gender\":\"m\",\"translations_ko\":[\"사과\"],\"level\":\"A1\",\"topic\":\"Food\"\x7d"

/-- One valid line, one blank line, one malformed line: three lines with
one invalid line and one surviving card. -/
def mixedText : String :=
  "\x7b\"lemma\":\"a\",\"translations_ko\":[]\x7d\n\nnotjson"

/-- Ten lines: four valid distinct records and six malformed lines. -/
def tenLineText : String :=
  "\x7b\"lemma\":\"a1\",\"translations_ko\":[]\x7d\nbad\nbad\n" ++
  "\x7b\"lemma\":\"a2\",\"translations_ko\":[]\x7d\nbad\nbad\n" ++
  "\x7b\"lemma\":\"a3\",\"translations_ko\":[]\x7d\nbad\nbad\n" ++
  "\x7b\"lemma\":\"a4\",\"translations_ko\":[]\x7d"

/-- A valid line carrying no explicit `id`, so ingestion generates one. -/
def noIdLine : String := "\x7b\"lemma\":\"a\",\"translations_ko\":[]\x7d"

/-- A valid line whose supplied accepted answer carries surrounding and
doubled internal whitespace. -/
def wsAnswerLine : String :=
  "\x7b\"lemma\":\"a\",\"translations_ko\":[],\"accepted_answers_de\":[\" A  B \"]\x7d"

/-- A valid line whose lemma itself contains a doubled internal space. -/
def doubleSpaceLemmaLine : String :=
  "\x7b\"lemma\":\"a  b\",\"translations_ko\":[]\x7d"

-- ## Theorems

/-- Claim C8: ingesting the single Apfel line produces exactly one card
whose `full_form` is "Apfel" (defaulted from the already-cleaned lemma),
whose `accepted_answers_de` is ["apfel"] (cleaned lemma lowercased), whose
`language` is "German" (fixed default), and whose `prompt_ko` is "사과"
(first translation), with no error; the generated id is the ingestion
timestamp plus line index 0. -/
theorem C8_apfel_end_to_end (now : Nat) :
    parseJSONL apfelLine now =
      { cards := [{ id := Int.ofNat now, «lemma» := "Apfel", gender := .str "m",
                    full_form := "Apfel", translations_ko := [.str "사과"],
                    prompt_ko := .str "사과", accepted_answers_de := ["apfel"],
                    level := .str "A1", topic := .str "Food",
                    language := .str "German" }],
        error := none } := rfl

/-- Claim C9: a candidate memo longer than 30 characters is rejected as a
complete no-op: the memo mapping (including any previously stored memo for
the card, or its absence) and the persistent store are both unchanged. -/
theorem C9_memo_overlong_rejected (memos : List (Int × String))
    (store : Option String) (cardId : Int) (text : String)
    (h : text.length > 30) :
    handleMemoChange memos store cardId text = (memos, store) := by
  simp [handleMemoChange, h]

/-- Witness for C9 at a concrete 31-character memo against a store holding
a previous memo for the same card. -/
theorem C9_witness :
    ("aaaaaaaaaaaaaaaaaaaaaaaaaaaaaaa" : String).length > 30 ∧
    handleMemoChange [(1, "old")] (some "prev") 1
        "aaaaaaaaaaaaaaaaaaaaaaaaaaaaaaa" = ([(1, "old")], some "prev") :=
  ⟨by decide, C9_memo_overlong_rejected [(1, "old")] (some "prev") 1
      "aaaaaaaaaaaaaaaaaaaaaaaaaaaaaaa" (by decide)⟩

/-- Claim C4, evaluated at the failing input: the guarded loads do treat a
corrupt stored payload as an empty collection, but `saveWrongCard` (the
append performed when a card is missed) parses the stored wrong-card list
without a handler and throws on the same payload, contradicting the claim
that every store operation recovers silently. -/
theorem C4_corrupt_store_eval :
    loadWrongCards (some "corrupt") = .arr [] ∧
    loadMemos (some "corrupt") = .obj [] ∧
    saveWrongCard (some "corrupt") defaultCard = .error () :=
  ⟨rfl, rfl, rfl⟩

/-- Claim C1, counterexample: `mixedText` has three lines, one invalid
line and one surviving card; the invalid-line count (1) does not exceed
half of the line count (3), yet `parseJSONL` returns a PartialCorruption
message, because the source actually tests whether the surviving-card
count is below half of the line count. -/
theorem C1_counterexample :
    (parseJSONL mixedText 0).cards.length = 1 ∧
    invalidLines mixedText 0 = 1 ∧
    (linesOf mixedText).length = 3 ∧
    ¬ (2 * invalidLines mixedText 0 > (linesOf mixedText).length) ∧
    (parseJSONL mixedText 0).error = some (corruptionWarningMsg 1) :=
  ⟨rfl, rfl, rfl, by decide, rfl⟩

/-- Claim C2, counterexample: the same input text ingested at two
different timestamps yields different results, because a record without
an explicit numeric id receives `Date.now() + index` as its id. -/
theorem C2_counterexample : parseJSONL noIdLine 0 ≠ parseJSONL noIdLine 1 := by
  intro h
  exact absurd (congrArg (fun r => r.cards.map (fun c => c.id)) h) (by decide)

/-- Claim C3, counterexample: a supplied accepted answer is only
suffix-stripped and lowercased, never trimmed or whitespace-collapsed, so
the ingested entry " a  b " is not fixed under the trim/lowercase/collapse
normalization the claim asserts. -/
theorem C3_counterexample :
    (parseJSONL wsAnswerLine 0).cards.map (fun c => c.accepted_answers_de) =
      [[" a  b "]] ∧
    normalizeAnswer " a  b " ≠ " a  b " :=
  ⟨rfl, by decide⟩

/-- Claim C6, counterexample: for a card whose accepted answers were
defaulted from a lemma containing a doubled internal space, submitting
exactly the lemma text is judged incorrect, because the normalized input
has its whitespace runs collapsed while the stored answer does not. -/
theorem C6_counterexample :
    (parseJSONL doubleSpaceLemmaLine 0).cards.map (fun c => c.«lemma») = ["a  b"] ∧
    (parseJSONL doubleSpaceLemmaLine 0).cards.map (fun c => c.accepted_answers_de) =
      [["a  b"]] ∧
    (handleSubmit (parseJSONL doubleSpaceLemmaLine 0).cards none
        ⟨0, "a  b", .idle, 0, 0, false, []⟩).1.correct = 0 ∧
    (handleSubmit (parseJSONL doubleSpaceLemmaLine 0).cards none
        ⟨0, "a  b", .idle, 0, 0, false, []⟩).1.feedback = .incorrect :=
  ⟨rfl, rfl, rfl, rfl⟩

/-- Claim C7: for whitespace-only input (the empty string or blank lines
only, characterized by an empty trim), and more generally whenever zero
cards survive, `parseJSONL` returns the empty card list with exactly the
EmptyResult error; and a blank line is skipped silently, leaving the loop
state (including the invalid counter) untouched. -/
theorem C7_empty_input (text : String) (now : Nat) :
    (jsTrim text.data = [] → parseJSONL text now = ⟨[], some emptyResultMsg⟩) ∧
    ((parseJSONL text now).cards = [] →
      (parseJSONL text now).error = some emptyResultMsg) ∧
    (∀ (st : IngestState) (idx : Nat) (line : List Char),
      (jsTrim line).isEmpty = true → ingestStep now st (idx, line) = st) := by
  have e : parseJSONL text now =
      finishParse (linesOf text).length (ingestOf text now) := rfl
  refine ⟨fun h => ?_, fun h => ?_, fun st idx line h => ?_⟩
  · unfold parseJSONL
    rw [h]
    rfl
  · rw [e] at h ⊢
    unfold finishParse at h ⊢
    by_cases hc : (ingestOf text now).cards.isEmpty
    · simp [hc]
    · exfalso
      simp only [hc, if_false, Bool.false_eq_true] at h
      split at h <;>
        simp_all [List.isEmpty_iff]
  · simp [ingestStep, processLine, h]

/-- Witness for C7: blank-only input, an input whose single line is
malformed (zero surviving cards), and one blank-line loop step. -/
theorem C7_witness :
    parseJSONL "  \n \n " 0 = ⟨[], some emptyResultMsg⟩ ∧
    (parseJSONL "notjson" 0).error = some emptyResultMsg ∧
    ingestStep 0 ⟨[], [], 0⟩ (5, "  ".data) = ⟨[], [], 0⟩ :=
  ⟨(C7_empty_input "  \n \n " 0).1 rfl,
   (C7_empty_input "notjson" 0).2.1 rfl,
   (C7_empty_input "" 0).2.2 ⟨[], [], 0⟩ 5 "  ".data rfl⟩

-- ### Characterization of the ingestion fold

lemma validCardsFrom_cons (now k : Nat) (l : List Char) (ls : List (List Char)) :
    validCardsFrom now k (l :: ls) =
      (match processLine now k l with
       | .card c => c :: validCardsFrom now (k + 1) ls
       | _ => validCardsFrom now (k + 1) ls) := by
  cases h : processLine now k l <;>
    simp [validCardsFrom, List.enumFrom, List.filterMap_cons, h]

lemma invalidCountFrom_cons (now k : Nat) (l : List Char) (ls : List (List Char)) :
    invalidCountFrom now k (l :: ls) =
      invalidCountFrom now (k + 1) ls +
        (match processLine now k l with
         | .invalid => 1
         | _ => 0) := by
  cases h : processLine now k l <;>
    simp [invalidCountFrom, List.enumFrom, List.countP_cons, h]

/-- The `forEach` fold of `parseJSONL` computes: the prior cards extended
with the first-occurrence deduplication of the valid cards, the updated
`seen` set, and the prior counter plus the dedup-independent invalid-line
count. -/
lemma ingest_foldl_eq (now : Nat) (lines : List (List Char)) :
    ∀ (k : Nat) (st : IngestState),
    (lines.enumFrom k).foldl (ingestStep now) st =
      ⟨st.cards ++ (dedupAux st.seen (validCardsFrom now k lines)).1,
       (dedupAux st.seen (validCardsFrom now k lines)).2,
       st.invalid + invalidCountFrom now k lines⟩ := by
  induction lines with
  | nil =>
    intro k st
    simp [validCardsFrom, invalidCountFrom, dedupAux, List.enumFrom]
  | cons l ls ih =>
    intro k st
    have he : (l :: ls).enumFrom k = (k, l) :: ls.enumFrom (k + 1) := rfl
    rw [he, List.foldl_cons]
    cases h : processLine now k l with
    | blank =>
      have hs : ingestStep now st (k, l) = st := by simp [ingestStep, h]
      rw [hs, ih (k + 1) st]
      simp [validCardsFrom_cons, invalidCountFrom_cons, h]
    | invalid =>
      have hs : ingestStep now st (k, l) = { st with invalid := st.invalid + 1 } := by
        simp [ingestStep, h]
      rw [hs, ih (k + 1)]
      simp only [validCardsFrom_cons, invalidCountFrom_cons, h]
      refine congrArg (IngestState.mk _ _) ?_
      omega
    | card c =>
      by_cases hseen : sigOf c ∈ st.seen
      · have hs : ingestStep now st (k, l) = st := by simp [ingestStep, h, hseen]
        rw [hs, ih (k + 1) st]
        simp [validCardsFrom_cons, invalidCountFrom_cons, h, dedupAux, hseen]
      · have hs : ingestStep now st (k, l) =
            { st with cards := st.cards ++ [c], seen := sigOf c :: st.seen } := by
          simp [ingestStep, h, hseen]
        rw [hs, ih (k + 1)]
        simp [validCardsFrom_cons, invalidCountFrom_cons, h, dedupAux, hseen]

lemma ingestOf_eq (text : String) (now : Nat) :
    ingestOf text now =
      ⟨(dedupAux [] (validCards text now)).1,
       (dedupAux [] (validCards text now)).2,
       invalidLines text now⟩ := by
  have h := ingest_foldl_eq now (linesOf text) 0 ⟨[], [], 0⟩
  simpa [ingestOf, ingestLines, validCards, invalidLines, List.enum] using h

lemma parseJSONL_cards (text : String) (now : Nat) :
    (parseJSONL text now).cards = (ingestOf text now).cards := by
  have e : parseJSONL text now =
      finishParse (linesOf text).length (ingestOf text now) := rfl
  rw [e]
  unfold finishParse
  by_cases hc : (ingestOf text now).cards.isEmpty
  · simp [hc, List.isEmpty_iff.mp hc]
  · simp only [hc, Bool.false_eq_true, if_false]
    split <;> rfl

/-- Filtering the deduplicated cards by one signature keeps exactly the
first pre-dedup occurrence of that signature (none when already seen). -/
lemma dedupAux_fst_filter (s : String) :
    ∀ (vs : List Card) (seen : List String),
    (dedupAux seen vs).1.filter (fun c => sigOf c == s) =
      (if s ∈ seen then [] else
        (vs.filter (fun c => sigOf c == s)).take 1) := by
  intro vs
  induction vs with
  | nil =>
    intro seen
    by_cases h : s ∈ seen <;> simp [dedupAux, h]
  | cons c cs ih =>
    intro seen
    by_cases hseen : sigOf c ∈ seen
    · have hd : dedupAux seen (c :: cs) = dedupAux seen cs := by
        simp [dedupAux, hseen]
      rw [hd, ih seen]
      by_cases hs : s ∈ seen
      · simp [hs]
      · have hq : sigOf c ≠ s := fun e => hs (e ▸ hseen)
        simp [hs, List.filter_cons, hq]
    · have hd : dedupAux seen (c :: cs) =
          (c :: (dedupAux (sigOf c :: seen) cs).1,
           (dedupAux (sigOf c :: seen) cs).2) := by
        simp [dedupAux, hseen]
      rw [hd]
      by_cases hq : sigOf c = s
      · subst hq
        have hfc : (c :: (dedupAux (sigOf c :: seen) cs).1).filter
              (fun d => sigOf d == sigOf c) =
            c :: ((dedupAux (sigOf c :: seen) cs).1.filter
              (fun d => sigOf d == sigOf c)) := by
          simp [List.filter_cons]
        rw [hfc, ih (sigOf c :: seen)]
        simp [hseen, List.filter_cons]
      · have hne : (sigOf c == s) = false := by simp [hq]
        have hfc : (c :: (dedupAux (sigOf c :: seen) cs).1).filter
              (fun d => sigOf d == s) =
            (dedupAux (sigOf c :: seen) cs).1.filter (fun d => sigOf d == s) := by
          simp [List.filter_cons, hne]
        rw [hfc, ih (sigOf c :: seen)]
        have hmem : (s ∈ sigOf c :: seen) ↔ s ∈ seen := by
          constructor
          · intro hx
            rcases List.mem_cons.mp hx with he | hm
            · exact absurd he.symm hq
            · exact hm
          · exact fun hm => List.mem_cons_of_mem _ hm
        by_cases hs : s ∈ seen
        · simp [hs, hmem.mpr hs]
        · have hns : ¬ s ∈ sigOf c :: seen := fun hx => hs (hmem.mp hx)
          simp [hs, hns, List.filter_cons, hne]

/-- Claim C5: within one ingestion call the output cards, restricted to
any one deduplication signature, are exactly the first pre-deduplication
occurrence of that signature in line order (so a later record agreeing on
the signature tuple is dropped, however its other fields differ); the
invalid-line counter equals the dedup-independent count of undecodable or
invalid lines, so dropped duplicates are never counted invalid; and
agreement on the normalized tuple (language, lemma, gender,
translations_ko, level, topic) entails agreement of signatures.  Calls on
different texts share no state: each call starts from the empty `seen`
set by construction (`ingestLines`), and its result depends only on its
own text argument. -/
theorem C5_dedup_first_survives (text : String) (now : Nat) (s : String) :
    ((parseJSONL text now).cards.filter (fun c => sigOf c == s)) =
      ((validCards text now).filter (fun c => sigOf c == s)).take 1 ∧
    (ingestOf text now).invalid = invalidLines text now ∧
    (∀ c1 c2 : Card,
      c1.language = c2.language → c1.«lemma» = c2.«lemma» →
      c1.gender = c2.gender → c1.translations_ko = c2.translations_ko →
      c1.level = c2.level → c1.topic = c2.topic → sigOf c1 = sigOf c2) := by
  refine ⟨?_, ?_, ?_⟩
  · rw [parseJSONL_cards, ingestOf_eq]
    simpa using dedupAux_fst_filter s (validCards text now) []
  · rw [ingestOf_eq]
  · intro c1 c2 h1 h2 h3 h4 h5 h6
    unfold sigOf
    rw [h1, h2, h3, h4, h5, h6]

/-- Claim C1 (amended): when at least one card survives, the surviving
cards are returned, and the PartialCorruption message (naming the
invalid-line count) is attached exactly when the invalid-line count is
positive and the surviving-card count is below half of the total line
count; otherwise there is no error.  (The source tests the surviving-card
count against half the lines, not the invalid count.) -/
theorem C1_corruption_warning_condition (text : String) (now : Nat)
    (h : (ingestOf text now).cards ≠ []) :
    (parseJSONL text now).cards = (ingestOf text now).cards ∧
    (parseJSONL text now).error =
      (if (ingestOf text now).invalid > 0 ∧
          2 * (ingestOf text now).cards.length < (linesOf text).length
       then some (corruptionWarningMsg (ingestOf text now).invalid)
       else none) := by
  have e : parseJSONL text now =
      finishParse (linesOf text).length (ingestOf text now) := rfl
  have hc : (ingestOf text now).cards.isEmpty = false := by
    cases hl : (ingestOf text now).cards
    · exact absurd hl h
    · rfl
  refine ⟨parseJSONL_cards text now, ?_⟩
  rw [e]
  unfold finishParse
  simp only [hc, Bool.false_eq_true, if_false]
  by_cases hcond : (ingestOf text now).invalid > 0 ∧
      2 * (ingestOf text now).cards.length < (linesOf text).length
  · simp [hcond]
  · simp [hcond]

/-- Witness for C1 at the ten-line input of the specification: four valid
cards survive, six lines are invalid, and the PartialCorruption message
names the six invalid lines. -/
theorem C1_witness :
    (parseJSONL tenLineText 0).cards = (ingestOf tenLineText 0).cards ∧
    (parseJSONL tenLineText 0).error = some (corruptionWarningMsg 6) := by
  have h := C1_corruption_warning_condition tenLineText 0
      (fun hx => absurd (congrArg List.length hx) (by decide))
  exact ⟨h.1, h.2.trans (by decide)⟩

-- ### Determinism up to generated ids (claim C2)

lemma sigOf_stripId (a : Card) : sigOf (stripId a) = sigOf a := rfl

lemma normalizeCard_map_stripId (o : Jv) (i1 n1 i2 n2 : Nat) :
    (normalizeCard o i1 n1).map stripId = (normalizeCard o i2 n2).map stripId := by
  unfold normalizeCard
  cases hl : objGet o "lemma" <;> try rfl
  rename_i v
  cases v <;> try rfl
  rename_i rawLemma
  cases ht : objGet o "translations_ko" <;> try rfl
  rename_i w
  cases w <;> try rfl
  rename_i transArr
  dsimp only
  cases hf : fullFormOf o (cleanText rawLemma) <;> try rfl
  rename_i ff
  cases ha : acceptedOf o (cleanText rawLemma) <;> rfl

lemma processLine_rel (n1 i1 n2 i2 : Nat) (l : List Char) :
    (processLine n1 i1 l = .blank ∧ processLine n2 i2 l = .blank) ∨
    (processLine n1 i1 l = .invalid ∧ processLine n2 i2 l = .invalid) ∨
    (∃ a b, processLine n1 i1 l = .card a ∧ processLine n2 i2 l = .card b ∧
      stripId a = stripId b) := by
  unfold processLine
  by_cases hb : (jsTrim l).isEmpty = true
  · simp [hb]
  · simp only [hb, Bool.false_eq_true, if_false]
    cases hj : jsonParse l
    · simp
    · rename_i v
      by_cases hv : validateCard v = true
      · simp only [hv, if_true]
        have hm := normalizeCard_map_stripId v i1 n1 i2 n2
        cases h1 : normalizeCard v i1 n1 <;> cases h2 : normalizeCard v i2 n2 <;>
          rw [h1, h2] at hm <;> simp only [Except.map] at hm
        · simp
        · exact absurd hm (by simp)
        · exact absurd hm (by simp)
        · rename_i a b
          refine Or.inr (Or.inr ⟨a, b, rfl, rfl, ?_⟩)
          simpa using hm
      · simp [hv]

lemma validCards_rel (n1 n2 : Nat) (lines : List (List Char)) :
    ∀ k : Nat,
    List.Forall₂ (fun a b => stripId a = stripId b)
      (validCardsFrom n1 k lines) (validCardsFrom n2 k lines) ∧
    invalidCountFrom n1 k lines = invalidCountFrom n2 k lines := by
  induction lines with
  | nil =>
    intro k
    simp [validCardsFrom, invalidCountFrom, List.enumFrom]
  | cons l ls ih =>
    intro k
    rcases processLine_rel n1 k n2 k l with ⟨h1, h2⟩ | ⟨h1, h2⟩ |
        ⟨a, b, h1, h2, hab⟩
    · simpa [validCardsFrom_cons, invalidCountFrom_cons, h1, h2] using ih (k + 1)
    · have hih := ih (k + 1)
      simp [validCardsFrom_cons, invalidCountFrom_cons, h1, h2, hih.1, hih.2]
    · have hih := ih (k + 1)
      refine ⟨?_, ?_⟩
      · rw [validCardsFrom_cons, validCardsFrom_cons, h1, h2]
        exact List.Forall₂.cons hab hih.1
      · simp [invalidCountFrom_cons, h1, h2, hih.2]

lemma forall₂_map_eq {α β : Type} (f : α → β) :
    ∀ {la lb : List α}, List.Forall₂ (fun a b => f a = f b) la lb →
      la.map f = lb.map f := by
  intro la lb h
  induction h with
  | nil => rfl
  | cons hab htl ih => simp [List.map_cons, hab, ih]

lemma dedupAux_rel :
    ∀ {va vb : List Card},
    List.Forall₂ (fun a b => stripId a = stripId b) va vb →
    ∀ seen : List String,
    (dedupAux seen va).2 = (dedupAux seen vb).2 ∧
    List.Forall₂ (fun a b => stripId a = stripId b)
      (dedupAux seen va).1 (dedupAux seen vb).1 := by
  intro va vb h
  induction h with
  | nil => simp [dedupAux]
  | @cons a b la lb hab htl ih =>
    intro seen
    have hs : sigOf a = sigOf b := by
      rw [← sigOf_stripId a, ← sigOf_stripId b, hab]
    by_cases hm : sigOf a ∈ seen
    · have hm2 : sigOf b ∈ seen := hs ▸ hm
      have e1 : dedupAux seen (a :: la) = dedupAux seen la := by
        simp [dedupAux, hm]
      have e2 : dedupAux seen (b :: lb) = dedupAux seen lb := by
        simp [dedupAux, hm2]
      rw [e1, e2]
      exact ih seen
    · have hm2 : ¬ sigOf b ∈ seen := hs ▸ hm
      have e1 : dedupAux seen (a :: la) =
          (a :: (dedupAux (sigOf a :: seen) la).1,
           (dedupAux (sigOf a :: seen) la).2) := by
        simp [dedupAux, hm]
      have e2 : dedupAux seen (b :: lb) =
          (b :: (dedupAux (sigOf b :: seen) lb).1,
           (dedupAux (sigOf b :: seen) lb).2) := by
        simp [dedupAux, hm2]
      rw [e1, e2, ← hs]
      exact ⟨(ih (sigOf a :: seen)).1, List.Forall₂.cons hab (ih (sigOf a :: seen)).2⟩

/-- Claim C2 (amended): ingestion is a pure function of the input text and
the ingestion timestamp; two runs on identical text agree on the error and
on every card field except the generated id (which embeds `Date.now()`),
in the same order and with the same deduplication outcome.  In particular
two runs at the same timestamp agree completely. -/
theorem C2_deterministic_up_to_ids (text : String) (n1 n2 : Nat) :
    (parseJSONL text n1).error = (parseJSONL text n2).error ∧
    (parseJSONL text n1).cards.map stripId =
      (parseJSONL text n2).cards.map stripId := by
  have hrel := validCards_rel n1 n2 (linesOf text) 0
  have hdd := dedupAux_rel hrel.1 []
  have hcards : (ingestOf text n1).cards.map stripId =
      (ingestOf text n2).cards.map stripId := by
    rw [ingestOf_eq, ingestOf_eq]
    exact forall₂_map_eq stripId hdd.2
  have hinv : (ingestOf text n1).invalid = (ingestOf text n2).invalid := by
    rw [ingestOf_eq, ingestOf_eq]
    exact hrel.2
  have hlen : (ingestOf text n1).cards.length = (ingestOf text n2).cards.length := by
    have := congrArg List.length hcards
    simpa using this
  refine ⟨?_, ?_⟩
  · have e1 : parseJSONL text n1 =
        finishParse (linesOf text).length (ingestOf text n1) := rfl
    have e2 : parseJSONL text n2 =
        finishParse (linesOf text).length (ingestOf text n2) := rfl
    rw [e1, e2]
    unfold finishParse
    have he : (ingestOf text n1).cards.isEmpty = (ingestOf text n2).cards.isEmpty := by
      cases hA : (ingestOf text n1).cards <;> cases hB : (ingestOf text n2).cards <;>
        rw [hA, hB] at hlen <;> simp_all
    rw [he, hinv, hlen]
    by_cases h0 : (ingestOf text n2).cards.isEmpty = true
    · simp [h0]
    · simp only [h0, Bool.false_eq_true, if_false]
      by_cases hcond : (ingestOf text n2).invalid > 0 ∧
          2 * (ingestOf text n2).cards.length < (linesOf text).length
      · simp [hcond]
      · simp [hcond]
  · rw [parseJSONL_cards, parseJSONL_cards]
    exact hcards

-- ### Character-level facts about lowercasing and whitespace

lemma toNat_ofNat_valid (n : Nat) (h : n.isValidChar) : (Char.ofNat n).toNat = n := by
  unfold Char.ofNat
  rw [dif_pos h]
  simp [Char.ofNatAux, Char.toNat, UInt32.toNat]

lemma isWs_false_of_gt64 (c : Char) (h : 64 < c.toNat) : isWs c = false := by
  have h1 : c ≠ ' ' := fun e => absurd (e ▸ h) (by decide)
  have h2 : c ≠ '\t' := fun e => absurd (e ▸ h) (by decide)
  have h3 : c ≠ '\n' := fun e => absurd (e ▸ h) (by decide)
  have h4 : c ≠ '\r' := fun e => absurd (e ▸ h) (by decide)
  have h5 : c ≠ '\x0b' := fun e => absurd (e ▸ h) (by decide)
  have h6 : c ≠ '\x0c' := fun e => absurd (e ▸ h) (by decide)
  simp [isWs, h1, h2, h3, h4, h5, h6]

/-- Lowercasing never changes whether a character is whitespace. -/
lemma isWs_toLower (c : Char) : isWs c.toLower = isWs c := by
  by_cases h : c.toNat ≥ 65 ∧ c.toNat ≤ 90
  · have hv : (c.toNat + 32).isValidChar := Or.inl (by omega)
    have ht : (Char.ofNat (c.toNat + 32)).toNat = c.toNat + 32 :=
      toNat_ofNat_valid _ hv
    have e1 : c.toLower = Char.ofNat (c.toNat + 32) := by
      simp [Char.toLower, h]
    rw [e1, isWs_false_of_gt64 _ (by omega), isWs_false_of_gt64 c (by omega)]
  · have e1 : c.toLower = c := by simp [Char.toLower, h]
    rw [e1]

lemma toLower_toLower (c : Char) : c.toLower.toLower = c.toLower := by
  by_cases h : c.toNat ≥ 65 ∧ c.toNat ≤ 90
  · have hv : (c.toNat + 32).isValidChar := Or.inl (by omega)
    have ht : (Char.ofNat (c.toNat + 32)).toNat = c.toNat + 32 :=
      toNat_ofNat_valid _ hv
    have e1 : c.toLower = Char.ofNat (c.toNat + 32) := by
      simp [Char.toLower, h]
    have h2 : ¬ ((Char.ofNat (c.toNat + 32)).toNat ≥ 65 ∧
        (Char.ofNat (c.toNat + 32)).toNat ≤ 90) := by
      rw [ht]; omega
    rw [e1]
    simp [Char.toLower, h2]
  · have e1 : c.toLower = c := by simp [Char.toLower, h]
    rw [e1, e1]

lemma jsToLower_idem (s : String) : jsToLower (jsToLower s) = jsToLower s := by
  unfold jsToLower
  refine congrArg String.mk ?_
  show (s.data.map Char.toLower).map Char.toLower = s.data.map Char.toLower
  rw [List.map_map]
  exact List.map_congr_left (fun a _ => toLower_toLower a)

-- ### Provenance of accepted answers (claim C3)

lemma mapM_except_mem {α β : Type} (f : α → Except Unit β) :
    ∀ (xs : List α) (ys : List β), xs.mapM f = .ok ys → ∀ y ∈ ys, ∃ x, f x = .ok y := by
  intro xs
  induction xs with
  | nil =>
    intro ys h y hy
    simp only [List.mapM_nil, pure, Except.pure] at h
    cases h
    simp at hy
  | cons x xs ih =>
    intro ys h y hy
    rw [List.mapM_cons] at h
    cases hfx : f x with
    | error e =>
      rw [hfx] at h
      simp [Bind.bind, Except.bind] at h
    | ok b =>
      rw [hfx] at h
      cases hxs : List.mapM f xs with
      | error e =>
        rw [hxs] at h
        simp [Bind.bind, Except.bind, pure, Except.pure] at h
      | ok bs =>
        rw [hxs] at h
        simp only [Bind.bind, Except.bind, pure, Except.pure, Except.ok.injEq] at h
        subst h
        rcases List.mem_cons.mp hy with rfl | hy2
        · exact ⟨x, hfx⟩
        · exact ih bs hxs y hy2

/-- Every entry produced by the accepted-answer coalescing is the
lowercasing of some string. -/
lemma acceptedOf_mem (o : Jv) (dl : String) (acc : List String)
    (h : acceptedOf o dl = .ok acc) :
    ∀ a ∈ acc, ∃ s, a = jsToLower s := by
  unfold acceptedOf at h
  cases hg : objGet o "accepted_answers_de" with
  | none =>
    rw [hg] at h
    intro a ha
    cases h
    simp at ha
    exact ⟨dl, ha⟩
  | some v =>
    rw [hg] at h
    cases v with
    | arr xs =>
      intro a ha
      rcases mapM_except_mem _ xs acc h a ha with ⟨x, hx⟩
      cases hcx : cleanTextJ x with
      | error e => rw [hcx] at hx; simp [Except.map] at hx
      | ok s =>
        rw [hcx] at hx
        simp only [Except.map, Except.ok.injEq] at hx
        exact ⟨s, hx.symm⟩
    | null =>
      intro a ha; cases h; simp at ha; exact ⟨dl, ha⟩
    | bool b =>
      intro a ha; cases h; simp at ha; exact ⟨dl, ha⟩
    | num n =>
      intro a ha; cases h; simp at ha; exact ⟨dl, ha⟩
    | str s =>
      intro a ha; cases h; simp at ha; exact ⟨dl, ha⟩
    | obj kvs =>
      intro a ha; cases h; simp at ha; exact ⟨dl, ha⟩

lemma normalizeCard_accepted_mem (o : Jv) (i n : Nat) (c : Card)
    (h : normalizeCard o i n = .ok c) :
    ∀ a ∈ c.accepted_answers_de, ∃ s, a = jsToLower s := by
  unfold normalizeCard at h
  cases hl : objGet o "lemma" <;> rw [hl] at h
  · simp at h
  rename_i v
  cases v <;> try simp at h
  rename_i rawLemma
  cases ht : objGet o "translations_ko" <;> rw [ht] at h
  · simp at h
  rename_i w
  cases w <;> try simp at h
  rename_i transArr
  cases hf : fullFormOf o (cleanText rawLemma) <;> rw [hf] at h
  · simp [Except.bind] at h
  rename_i ff
  cases ha : acceptedOf o (cleanText rawLemma) <;> rw [ha] at h
  · simp [Except.bind] at h
  rename_i acc
  simp only [Except.bind, Except.ok.injEq] at h
  subst h
  exact acceptedOf_mem o (cleanText rawLemma) acc ha

lemma mem_dedupAux_fst :
    ∀ (vs : List Card) (seen : List String) (c : Card),
    c ∈ (dedupAux seen vs).1 → c ∈ vs := by
  intro vs
  induction vs with
  | nil => intro seen c h; simp [dedupAux] at h
  | cons a as ih =>
    intro seen c h
    by_cases hm : sigOf a ∈ seen
    · rw [show dedupAux seen (a :: as) = dedupAux seen as from by
        simp [dedupAux, hm]] at h
      exact List.mem_cons_of_mem _ (ih seen c h)
    · rw [show dedupAux seen (a :: as) =
          (a :: (dedupAux (sigOf a :: seen) as).1,
           (dedupAux (sigOf a :: seen) as).2) from by
        simp [dedupAux, hm]] at h
      rcases List.mem_cons.mp h with rfl | h2
      · exact List.mem_cons_self _ _
      · exact List.mem_cons_of_mem _ (ih _ c h2)

lemma mem_validCards_processLine (text : String) (now : Nat) (c : Card)
    (h : c ∈ validCards text now) :
    ∃ idx line, processLine now idx line = .card c := by
  unfold validCards validCardsFrom at h
  rcases List.mem_filterMap.mp h with ⟨p, _, hfp⟩
  refine ⟨p.1, p.2, ?_⟩
  cases hpl : processLine now p.1 p.2 <;> rw [hpl] at hfp <;> simp at hfp
  rw [hfp]

lemma normalizeCard_of_processLine (now idx : Nat) (line : List Char) (c : Card)
    (h : processLine now idx line = .card c) :
    ∃ o, normalizeCard o idx now = .ok c := by
  unfold processLine at h
  by_cases hb : (jsTrim line).isEmpty = true
  · simp [hb] at h
  · simp only [hb, Bool.false_eq_true, if_false] at h
    cases hj : jsonParse line <;> rw [hj] at h
    · simp at h
    rename_i v
    dsimp only at h
    by_cases hv : validateCard v = true
    · rw [if_pos hv] at h
      cases hn : normalizeCard v idx now <;> rw [hn] at h
      · simp at h
      · rename_i c2
        simp at h
        exact ⟨v, by rw [hn, h]⟩
    · simp [hv] at h

/-- Claim C3 (amended): every entry of the `accepted_answers_de` of every
ingested card is lowercased (fixed under lowercasing), both when the
field was supplied (entries are suffix-stripped and lowercased) and when
it was defaulted from the lemma; entries are NOT additionally trimmed or
whitespace-collapsed, so the claimed full pre-normalization fails (see
the counterexample). -/
theorem C3_accepted_answers_lowercased (text : String) (now : Nat) (c : Card)
    (hc : c ∈ (parseJSONL text now).cards) :
    ∀ a ∈ c.accepted_answers_de, jsToLower a = a := by
  intro a ha
  rw [parseJSONL_cards, ingestOf_eq] at hc
  have hv : c ∈ validCards text now := mem_dedupAux_fst _ [] c hc
  rcases mem_validCards_processLine text now c hv with ⟨idx, line, hpl⟩
  rcases normalizeCard_of_processLine now idx line c hpl with ⟨o, ho⟩
  rcases normalizeCard_accepted_mem o idx now c ho a ha with ⟨s, rfl⟩
  exact jsToLower_idem s

/-- Witness for C3 at the Apfel line: the defaulted entry "apfel" is
fixed under lowercasing. -/
theorem C3_witness : jsToLower "apfel" = "apfel" :=
  C3_accepted_answers_lowercased apfelLine 0
    { id := Int.ofNat 0, «lemma» := "Apfel", gender := .str "m",
      full_form := "Apfel", translations_ko := [.str "사과"],
      prompt_ko := .str "사과", accepted_answers_de := ["apfel"],
      level := .str "A1", topic := .str "Food", language := .str "German" }
    (List.mem_cons_self _ _) "apfel" (List.mem_cons_self _ _)

-- ### Empty-string fields behave as absent fields (claim C10)

/-- `normalizeCard` only reads its input through the property getters, so
records agreeing on every getter (the coalesced ones up to `jsOrO`)
normalize identically. -/
lemma normalizeCard_congr (o1 o2 : Jv) (i n : Nat)
    (hl : objGet o1 "lemma" = objGet o2 "lemma")
    (ht : objGet o1 "translations_ko" = objGet o2 "translations_ko")
    (hff : objGet o1 "full_form" = objGet o2 "full_form")
    (hacc : objGet o1 "accepted_answers_de" = objGet o2 "accepted_answers_de")
    (hid : objGet o1 "id" = objGet o2 "id")
    (hg : jsOrO (objGet o1 "gender") .null = jsOrO (objGet o2 "gender") .null)
    (hp : ∀ d, jsOrO (objGet o1 "prompt_ko") d = jsOrO (objGet o2 "prompt_ko") d)
    (hlev : jsOrO (objGet o1 "level") (.str "Unknown") =
      jsOrO (objGet o2 "level") (.str "Unknown"))
    (htop : jsOrO (objGet o1 "topic") (.str "General") =
      jsOrO (objGet o2 "topic") (.str "General"))
    (hlang : jsOrO (objGet o1 "language") (.str "German") =
      jsOrO (objGet o2 "language") (.str "German")) :
    normalizeCard o1 i n = normalizeCard o2 i n := by
  unfold normalizeCard fullFormOf acceptedOf idOf
  rw [hl, ht, hff, hacc, hid, hg, hlev, htop, hlang]
  cases objGet o2 "lemma" <;> try rfl
  rename_i v
  cases v <;> try rfl
  rename_i rawLemma
  cases objGet o2 "translations_ko" <;> try rfl
  rename_i w
  cases w <;> try rfl
  rename_i transArr
  dsimp only
  rw [hp]

/-- Claim C10: for a valid decoded record, a field among gender, level,
topic, language, prompt_ko that is present but equal to the empty string
is treated exactly as if it were absent: a second record that differs
only by dropping the field validates identically and normalizes to the
identical card (empty strings are falsy, so the same default applies). -/
theorem C10_empty_string_fields_as_absent (o1 o2 : Jv) (f : String) (i n : Nat)
    (hf : f ∈ (["gender", "level", "topic", "language", "prompt_ko"] : List String))
    (h1 : objGet o1 f = some (.str ""))
    (h2 : objGet o2 f = none)
    (hagree : ∀ g, g ≠ f → objGet o1 g = objGet o2 g)
    (hv : validateCard o1 = true) :
    validateCard o2 = true ∧ normalizeCard o1 i n = normalizeCard o2 i n := by
  have hval : validateCard o2 = true := by
    have e1 : objGet o1 "lemma" = objGet o2 "lemma" := by
      refine hagree "lemma" (fun e => ?_)
      rcases (by simpa using hf :
        f = "gender" ∨ f = "level" ∨ f = "topic" ∨ f = "language" ∨
          f = "prompt_ko") with rfl | rfl | rfl | rfl | rfl <;> simp at e
    have e2 : objGet o1 "translations_ko" = objGet o2 "translations_ko" := by
      refine hagree "translations_ko" (fun e => ?_)
      rcases (by simpa using hf :
        f = "gender" ∨ f = "level" ∨ f = "topic" ∨ f = "language" ∨
          f = "prompt_ko") with rfl | rfl | rfl | rfl | rfl <;> simp at e
    unfold validateCard at hv ⊢
    rw [← e1, ← e2]
    exact hv
  refine ⟨hval, ?_⟩
  rcases (by simpa using hf :
      f = "gender" ∨ f = "level" ∨ f = "topic" ∨ f = "language" ∨
        f = "prompt_ko") with rfl | rfl | rfl | rfl | rfl
  · exact normalizeCard_congr o1 o2 i n (hagree _ (by decide)) (hagree _ (by decide))
      (hagree _ (by decide)) (hagree _ (by decide)) (hagree _ (by decide))
      (by rw [h1, h2]; rfl) (fun d => by rw [hagree "prompt_ko" (by decide)])
      (by rw [hagree "level" (by decide)]) (by rw [hagree "topic" (by decide)])
      (by rw [hagree "language" (by decide)])
  · exact normalizeCard_congr o1 o2 i n (hagree _ (by decide)) (hagree _ (by decide))
      (hagree _ (by decide)) (hagree _ (by decide)) (hagree _ (by decide))
      (by rw [hagree "gender" (by decide)]) (fun d => by rw [hagree "prompt_ko" (by decide)])
      (by rw [h1, h2]; rfl) (by rw [hagree "topic" (by decide)])
      (by rw [hagree "language" (by decide)])
  · exact normalizeCard_congr o1 o2 i n (hagree _ (by decide)) (hagree _ (by decide))
      (hagree _ (by decide)) (hagree _ (by decide)) (hagree _ (by decide))
      (by rw [hagree "gender" (by decide)]) (fun d => by rw [hagree "prompt_ko" (by decide)])
      (by rw [hagree "level" (by decide)]) (by rw [h1, h2]; rfl)
      (by rw [hagree "language" (by decide)])
  · exact normalizeCard_congr o1 o2 i n (hagree _ (by decide)) (hagree _ (by decide))
      (hagree _ (by decide)) (hagree _ (by decide)) (hagree _ (by decide))
      (by rw [hagree "gender" (by decide)]) (fun d => by rw [hagree "prompt_ko" (by decide)])
      (by rw [hagree "level" (by decide)]) (by rw [hagree "topic" (by decide)])
      (by rw [h1, h2]; rfl)
  · exact normalizeCard_congr o1 o2 i n (hagree _ (by decide)) (hagree _ (by decide))
      (hagree _ (by decide)) (hagree _ (by decide)) (hagree _ (by decide))
      (by rw [hagree "gender" (by decide)]) (fun d => by rw [h1, h2]; rfl)
      (by rw [hagree "level" (by decide)]) (by rw [hagree "topic" (by decide)])
      (by rw [hagree "language" (by decide)])

/-- Witness for C10: a record with `"gender": ""` and the same record
without the field produce the identical card. -/
theorem C10_witness :
    validateCard (.obj [("lemma", .str "a"), ("translations_ko", .arr [])]) = true ∧
    normalizeCard (.obj [("lemma", .str "a"), ("translations_ko", .arr []),
        ("gender", .str "")]) 0 0 =
      normalizeCard (.obj [("lemma", .str "a"), ("translations_ko", .arr [])]) 0 0 :=
  C10_empty_string_fields_as_absent
    (.obj [("lemma", .str "a"), ("translations_ko", .arr []), ("gender", .str "")])
    (.obj [("lemma", .str "a"), ("translations_ko", .arr [])])
    "gender" 0 0 (by decide) rfl rfl
    (by
      intro g hg
      by_cases hA : g = "lemma"
      · subst hA; rfl
      · by_cases hB : g = "translations_ko"
        · subst hB; rfl
        · have hA2 : (("lemma" : String) == g) = false :=
            beq_eq_false_iff_ne.mpr (fun e => hA e.symm)
          have hB2 : (("translations_ko" : String) == g) = false :=
            beq_eq_false_iff_ne.mpr (fun e => hB e.symm)
          have hC2 : (("gender" : String) == g) = false :=
            beq_eq_false_iff_ne.mpr (fun e => hg e.symm)
          simp [objGet, List.find?, hA2, hB2, hC2])
    rfl

-- ### Whitespace facts for quiz answer normalization (claim C6)

lemma length_dropWhile_le {α : Type} (p : α → Bool) :
    ∀ l : List α, (List.dropWhile p l).length ≤ l.length := by
  intro l
  induction l with
  | nil => simp
  | cons a as ih =>
    rw [List.dropWhile_cons]
    by_cases h : p a = true
    · simp only [h, if_true]
      exact Nat.le_succ_of_le ih
    · simp [h]

lemma dropWhile_append_all {α : Type} (p : α → Bool) :
    ∀ (xs ys : List α), (∀ c ∈ xs, p c = true) →
    (xs ++ ys).dropWhile p = ys.dropWhile p := by
  intro xs ys h
  induction xs with
  | nil => rfl
  | cons a as ih =>
    have ha : p a = true := h a (List.mem_cons_self _ _)
    rw [List.cons_append, List.dropWhile_cons, if_pos ha]
    exact ih (fun c hc => h c (List.mem_cons_of_mem _ hc))

/-- A nonempty list fixed by trimming starts and ends with a
non-whitespace character. -/
lemma trim_fixed_facts (xs : List Char) (h : jsTrim xs = xs) (hne : xs ≠ []) :
    (∃ x t, xs = x :: t ∧ isWs x = false) ∧
    (∃ y ys, xs.reverse = y :: ys ∧ isWs y = false) := by
  cases xs with
  | nil => exact absurd rfl hne
  | cons x t =>
    by_cases hx : isWs x = true
    · exfalso
      have hd : List.dropWhile isWs (x :: t) = List.dropWhile isWs t := by
        rw [List.dropWhile_cons, if_pos hx]
      have hlen : (jsTrim (x :: t)).length ≤ t.length := by
        unfold jsTrim
        rw [hd]
        calc ((List.dropWhile isWs (List.dropWhile isWs t).reverse).reverse).length
            = (List.dropWhile isWs (List.dropWhile isWs t).reverse).length := by
              rw [List.length_reverse]
          _ ≤ ((List.dropWhile isWs t).reverse).length :=
              length_dropWhile_le isWs _
          _ = (List.dropWhile isWs t).length := by rw [List.length_reverse]
          _ ≤ t.length := length_dropWhile_le isWs t
      rw [h] at hlen
      simp at hlen
    · have hdw : List.dropWhile isWs (x :: t) = x :: t := by
        rw [List.dropWhile_cons, if_neg hx]
      have h2 : List.dropWhile isWs ((x :: t).reverse) = (x :: t).reverse := by
        have h3 := h
        unfold jsTrim at h3
        rw [hdw] at h3
        have h4 := congrArg List.reverse h3
        simpa using h4
      cases hr : (x :: t).reverse with
      | nil => exact absurd (congrArg List.length hr) (by simp)
      | cons y ys =>
        by_cases hy : isWs y = true
        · exfalso
          rw [hr, List.dropWhile_cons, if_pos hy] at h2
          have := congrArg List.length h2
          have hl1 : (List.dropWhile isWs ys).length ≤ ys.length :=
            length_dropWhile_le isWs ys
          simp at this
          omega
        · exact ⟨⟨x, t, rfl, by simpa using hx⟩, ⟨y, ys, rfl, by simpa using hy⟩⟩

/-- Trimming a whitespace sandwich around a core that starts and ends
with non-whitespace yields exactly the core. -/
lemma jsTrim_sandwich (ws1 mid ws2 : List Char)
    (h1 : ∀ c ∈ ws1, isWs c = true) (h2 : ∀ c ∈ ws2, isWs c = true)
    (x : Char) (t : List Char) (hxt : mid = x :: t) (hx : isWs x = false)
    (y : Char) (ys : List Char) (hrev : mid.reverse = y :: ys)
    (hy : isWs y = false) :
    jsTrim (ws1 ++ mid ++ ws2) = mid := by
  unfold jsTrim
  have e1 : List.dropWhile isWs (ws1 ++ mid ++ ws2) = mid ++ ws2 := by
    rw [List.append_assoc, dropWhile_append_all isWs ws1 (mid ++ ws2) h1, hxt,
      List.cons_append, List.dropWhile_cons, if_neg (by simp [hx])]
  rw [e1, List.reverse_append]
  have e3 : List.dropWhile isWs (ws2.reverse ++ mid.reverse) = mid.reverse := by
    rw [dropWhile_append_all isWs ws2.reverse mid.reverse
        (fun c hc => h2 c (List.mem_reverse.mp hc)), hrev,
      List.dropWhile_cons, if_neg (by simp [hy])]
  rw [e3]
  simp

lemma isWs_eq_of_toLower_eq (a b : Char) (h : a.toLower = b.toLower) :
    isWs a = isWs b := by
  rw [← isWs_toLower a, ← isWs_toLower b, h]

/-- Whitespace collapsing commutes with lowercasing. -/
lemma collapseWs_map_toLower :
    ∀ xs : List Char,
    collapseWs (xs.map Char.toLower) = (collapseWs xs).map Char.toLower := by
  intro xs
  induction xs with
  | nil => rfl
  | cons c cs ih =>
    cases cs with
    | nil =>
      by_cases h : isWs c = true <;>
        simp [collapseWs, isWs_toLower, h, (by decide : Char.toLower ' ' = ' ')]
    | cons c2 cs2 =>
      simp only [List.map_cons] at ih
      by_cases hA : isWs c = true <;> by_cases hB : isWs c2 = true <;>
        simp [collapseWs, isWs_toLower, hA, hB, ih,
          (by decide : Char.toLower ' ' = ' ')]

/-- Claim C6 (amended): per-question submission (i) normalizes the input
by trim, lowercase and whitespace-run collapse and scores it correct
exactly when the normalized input is a member of the card's
`accepted_answers_de`, incrementing `total` once; (ii) after feedback is
shown, a further submission only advances (`handleNext`) and never
re-scores; (iii) for a card whose accepted answers equal the lowercased
lemma (the defaulted case), submitting the lemma text with any casing and
any surrounding whitespace scores correct, PROVIDED the lemma itself is
whitespace-normalized (no leading/trailing whitespace, no internal
whitespace runs) and nonempty — without that proviso the claim fails (see
the counterexample). -/
theorem C6_quiz_scoring :
    (∀ (cards : List Card) (store : Option String) (st : QuizState),
      st.isFinished = false → st.feedback = .idle →
      (jsTrim st.input.data).isEmpty = false →
      (handleSubmit cards store st).1.total = st.total + 1 ∧
      (handleSubmit cards store st).1.correct =
        (if (cards.getD st.currentIndex defaultCard).accepted_answers_de.contains
              (normalizeAnswer st.input) then st.correct + 1 else st.correct) ∧
      (handleSubmit cards store st).1.feedback =
        (if (cards.getD st.currentIndex defaultCard).accepted_answers_de.contains
              (normalizeAnswer st.input) then .correct else .incorrect)) ∧
    (∀ (cards : List Card) (store : Option String) (st : QuizState),
      st.isFinished = false → st.feedback ≠ .idle →
      handleSubmit cards store st = (handleNext cards st, store, false) ∧
      (handleNext cards st).total = st.total ∧
      (handleNext cards st).correct = st.correct) ∧
    (∀ (cards : List Card) (store : Option String) (st : QuizState)
       (L : String) (ws1 mid ws2 : List Char),
      st.isFinished = false → st.feedback = .idle →
      (cards.getD st.currentIndex defaultCard).accepted_answers_de =
        [jsToLower L] →
      L.data ≠ [] → jsTrim L.data = L.data → collapseWs L.data = L.data →
      (∀ c ∈ ws1, isWs c = true) → (∀ c ∈ ws2, isWs c = true) →
      mid.map Char.toLower = L.data.map Char.toLower →
      st.input = ⟨ws1 ++ mid ++ ws2⟩ →
      (handleSubmit cards store st).1.correct = st.correct + 1 ∧
      (handleSubmit cards store st).1.feedback = .correct) := by
  have scoreA : ∀ (cards : List Card) (store : Option String) (st : QuizState),
      st.isFinished = false → st.feedback = .idle →
      (jsTrim st.input.data).isEmpty = false →
      (handleSubmit cards store st).1.total = st.total + 1 ∧
      (handleSubmit cards store st).1.correct =
        (if (cards.getD st.currentIndex defaultCard).accepted_answers_de.contains
              (normalizeAnswer st.input) then st.correct + 1 else st.correct) ∧
      (handleSubmit cards store st).1.feedback =
        (if (cards.getD st.currentIndex defaultCard).accepted_answers_de.contains
              (normalizeAnswer st.input) then .correct else .incorrect) := by
    intro cards store st h1 h2 h3
    by_cases hc : normalizeAnswer st.input ∈
        (cards[st.currentIndex]?.getD defaultCard).accepted_answers_de
    · simp [handleSubmit, h1, h2, h3, hc, List.getD_eq_getElem?_getD]
    · cases hsv : saveWrongCard store (cards[st.currentIndex]?.getD defaultCard) <;>
        simp [handleSubmit, h1, h2, h3, hc, hsv, List.getD_eq_getElem?_getD]
  refine ⟨scoreA, ?_, ?_⟩
  · intro cards store st h1 h2
    refine ⟨?_, ?_, ?_⟩
    · simp [handleSubmit, h1, h2]
    · unfold handleNext
      by_cases h : st.currentIndex + 1 ≥ cards.length <;> simp [h]
    · unfold handleNext
      by_cases h : st.currentIndex + 1 ≥ cards.length <;> simp [h]
  · intro cards store st L ws1 mid ws2 h1 h2 hacc hLne hLtrim hLcoll hws1 hws2
      hmap hinput
    obtain ⟨⟨x, t, hxt, hxws⟩, ⟨y, ys, hrev, hyws⟩⟩ :=
      trim_fixed_facts L.data hLtrim hLne
    obtain ⟨x2, t2, hxt2, hxws2⟩ : ∃ x2 t2, mid = x2 :: t2 ∧ isWs x2 = false := by
      cases hm : mid with
      | nil =>
        exfalso
        rw [hm] at hmap
        rw [hxt] at hmap
        simp at hmap
      | cons x2 t2 =>
        rw [hm, hxt] at hmap
        simp only [List.map_cons, List.cons.injEq] at hmap
        exact ⟨x2, t2, rfl, (isWs_eq_of_toLower_eq x2 x hmap.1).trans hxws⟩
    obtain ⟨y2, ys2, hrev2, hyws2⟩ :
        ∃ y2 ys2, mid.reverse = y2 :: ys2 ∧ isWs y2 = false := by
      have hmaprev : mid.reverse.map Char.toLower =
          L.data.reverse.map Char.toLower := by
        rw [List.map_reverse, List.map_reverse, hmap]
      cases hm : mid.reverse with
      | nil =>
        exfalso
        rw [hm, hrev] at hmaprev
        simp at hmaprev
      | cons y2 ys2 =>
        rw [hm, hrev] at hmaprev
        simp only [List.map_cons, List.cons.injEq] at hmaprev
        exact ⟨y2, ys2, rfl, (isWs_eq_of_toLower_eq y2 y hmaprev.1).trans hyws⟩
    have htrim : jsTrim (ws1 ++ mid ++ ws2) = mid :=
      jsTrim_sandwich ws1 mid ws2 hws1 hws2 x2 t2 hxt2 hxws2 y2 ys2 hrev2 hyws2
    have hdata : st.input.data = ws1 ++ mid ++ ws2 := by rw [hinput]
    have hnorm : normalizeAnswer st.input = jsToLower L := by
      unfold normalizeAnswer jsToLower
      rw [hdata, htrim, hmap, collapseWs_map_toLower, hLcoll]
    have hblank : (jsTrim st.input.data).isEmpty = false := by
      rw [hdata, htrim, hxt2]
      rfl
    have hcont : (cards.getD st.currentIndex defaultCard).accepted_answers_de.contains
        (normalizeAnswer st.input) = true := by
      rw [hacc, hnorm]
      simp
    have h := scoreA cards store st h1 h2 hblank
    rw [h.2.1, h.2.2]
    rw [if_pos hcont, if_pos hcont]
    exact ⟨rfl, rfl⟩

/-- Witness for C6: the Apfel card (accepted answers defaulted from the
lemma) scores correct on the input "  APFEL " — upper case, surrounding
whitespace — and a post-feedback submission leaves the score untouched. -/
theorem C6_witness :
    ((handleSubmit (parseJSONL apfelLine 0).cards none
        ⟨0, "  APFEL ", .idle, 0, 0, false, []⟩).1.correct = 0 + 1 ∧
     (handleSubmit (parseJSONL apfelLine 0).cards none
        ⟨0, "  APFEL ", .idle, 0, 0, false, []⟩).1.feedback = .correct) ∧
    (handleSubmit (parseJSONL apfelLine 0).cards none
        ⟨0, "x", .correct, 1, 1, false, []⟩).1.correct = 1 :=
  ⟨C6_quiz_scoring.2.2 (parseJSONL apfelLine 0).cards none
      ⟨0, "  APFEL ", .idle, 0, 0, false, []⟩ "Apfel"
      "  ".data "APFEL".data " ".data
      rfl rfl rfl (by decide) rfl rfl (by decide) (by decide) rfl rfl,
   by
    have h := C6_quiz_scoring.2.1 (parseJSONL apfelLine 0).cards none
        ⟨0, "x", .correct, 1, 1, false, []⟩ rfl (by decide)
    rw [h.1]
    exact h.2.2⟩

end Vokabel
